import Mathlib

/-!
# Verification of the ChatPT agentic streaming loop

Shallow embedding of `src/backend/agent/loop.py` (`run_agent_stream` and its
helpers `_format_mesh_id`, `_action_label`, `_sse`) together with the tool
registry of `src/backend/agent/tools.py`.

Modelling conventions:
* SSE events are modelled as an inductive `Event` type (the JSON dicts passed
  to `_sse`); the `data: {...}\n\n` wrapping performed by `_sse` is a bijective
  serialization and is not modelled.
* External collaborators are an explicit environment `Env`:
  the model completion endpoint (`client.chat.completions.create`) is a
  per-turn oracle returning the streamed chunks, `json.loads` is an oracle
  returning the parsed object or `none` for a `JSONDecodeError`, and each
  internal tool callable is an oracle returning the drained sub-agent events
  plus either a result string (`str(result)`) or a raised exception's message
  (`str(e)`).
* Python strings/`None`: optional string fields of stream deltas are modelled
  as `String` with `""` for both `None` and `""` (the code only ever tests
  them for truthiness, which identifies the two).
* An unhandled exception escaping the turn body is modelled at the stream
  boundary: `StreamResult.failure pfx` is a model stream that raises after
  yielding the chunk prefix `pfx` (this covers endpoint-creation failures with
  `pfx = []`).  Tool-callable exceptions are caught by the code itself and are
  modelled inside `InternalOutcome`.
* Dynamic-typing errors from schema-violating JSON arguments (e.g. a non-array
  `meshIds`) are not modelled: JSON values are read back with the types the
  registry schemas declare.
-/

namespace ChatPT

/-- Parsed JSON values (the possible results of `json.loads`).  Numbers are
modelled as integers; no claim depends on numeric values. -/
inductive JsonVal where
  | null : JsonVal
  | bool (b : Bool) : JsonVal
  | num (n : Int) : JsonVal
  | str (s : String) : JsonVal
  | arr (elems : List JsonVal) : JsonVal
  | obj (fields : List (String × JsonVal)) : JsonVal

/-- A parsed JSON object: what `json.loads` returns for a tool-arguments
string (the tool parameter schemas all declare `"type": "object"`). -/
abbrev Params := List (String × JsonVal)

/-- One entry of `tool_calls_by_index` in `run_agent_stream`
(the dict `{"id": ..., "name": ..., "arguments": ...}`), also the payload of
one finalized assistant tool call. -/
structure ToolCallRec where
  id : String
  name : String
  arguments : String
deriving DecidableEq

/-- One streamed tool-call delta fragment (`tc_delta`): an integer index and
optional id / function-name / argument-text fragments (`""` = absent). -/
structure ToolCallDelta where
  index : Nat
  id : String
  name : String
  arguments : String
deriving DecidableEq

/-- One streamed chunk's delta (`chunk.choices[0]`): optional content
fragment (`""` = absent), tool-call delta fragments, optional finish reason.
Chunks with an empty `choices` list are skipped by the code and are not
represented. -/
structure Chunk where
  content : String
  tool_calls : List ToolCallDelta
  finish_reason : Option String
deriving DecidableEq

/-- A conversation message dict (`messages` / `tool_thread` entries). -/
inductive Msg where
  | system (content : String) : Msg
  | user (content : String) : Msg
  | assistant (content : Option String) (tool_calls : List ToolCallRec) : Msg
  | tool (tool_call_id : String) (content : String) : Msg
deriving DecidableEq

/-- An accumulated action `{"name": name, "params": params}`. -/
structure ActionRec where
  name : String
  params : Params

/-- A substep event enqueued by the `research` sub-agent
(`{"type": "substep"|"substep_complete", "tool": ..., "label": ...}`,
the only shapes `research` in `tools.py` ever puts on its event queue). -/
structure SubEvent where
  complete : Bool
  tool : String
  label : String

/-- The SSE event dicts emitted by `run_agent_stream` (and forwarded from the
research sub-agent's queue). -/
inductive Event where
  | step (tool label : String) : Event
  | step_complete (tool label : String) : Event
  | text_delta (text : String) : Event
  | substep (tool label : String) : Event
  | substep_complete (tool label : String) : Event
  | done (content : String) (actions : List ActionRec) (toolThread : List Msg) : Event

def SubEvent.toEvent (e : SubEvent) : Event :=
  if e.complete then Event.substep_complete e.tool e.label
  else Event.substep e.tool e.label

/-- `ToolKind` from `tools.py`. -/
inductive ToolKind where
  | INTERNAL : ToolKind
  | ACTION : ToolKind
deriving DecidableEq

/-- `ToolSpec` from `tools.py`, keeping the fields the loop reads.  The JSON
schema is only forwarded verbatim to the external model endpoint and the
callable's behaviour lives in the environment oracle, so neither is a field
here. -/
structure ToolSpec where
  name : String
  kind : ToolKind
  step_label : String
deriving DecidableEq

/-- `TOOL_REGISTRY` from `tools.py` as a lookup function
(`TOOL_REGISTRY.get(name)`).  The source file contains an unresolved merge
conflict in `_ACTION_TOOLS`: the HEAD side declares `select_muscles`, the
other side `create_workout`; both are included. -/
def TOOL_REGISTRY : String → Option ToolSpec
  | "research" => some ⟨"research", ToolKind.INTERNAL, "Researching clinical evidence"⟩
  | "get_patient_muscle_context" =>
      some ⟨"get_patient_muscle_context", ToolKind.INTERNAL, "Loading patient data"⟩
  | "update_muscle" => some ⟨"update_muscle", ToolKind.ACTION, "Updating muscle state"⟩
  | "create_assessment" => some ⟨"create_assessment", ToolKind.ACTION, "Creating assessment"⟩
  | "select_muscles" => some ⟨"select_muscles", ToolKind.ACTION, "Selecting muscles on model"⟩
  | "create_workout" => some ⟨"create_workout", ToolKind.ACTION, "Creating workout plan"⟩
  | _ => none

/-! ## String helpers used by `_format_mesh_id` / `_action_label` -/

/-- Python `s.rstrip(chars)`: drop all trailing characters satisfying `p`. -/
def rstripChars (s : String) (p : Char → Bool) : String :=
  String.mk (s.data.reverse.dropWhile p).reverse

/-- Python `s.rsplit(sep, 1)[0]` for a non-empty `sep`: the part of `s`
before the last occurrence of `sep`, or all of `s` if `sep` never occurs. -/
def rsplitBefore (s sep : String) : String :=
  match ((List.range (s.length + 1)).filter (fun i => (s.drop i).startsWith sep)).getLast? with
  | some i => s.take i
  | none => s

/-- `_format_mesh_id` from `loop.py`. -/
def format_mesh_id (mesh_id : String) : String :=
  let ns : String × String :=
    if mesh_id.endsWith "l" then (mesh_id.dropRight 1, " (L)")
    else if mesh_id.endsWith "r" then (mesh_id.dropRight 1, " (R)")
    else (mesh_id, "")
  (rstripChars ns.1 (fun c => c == '.')).replace "_" " " ++ ns.2

/-- Python `params.get(k, "")` read back as a string (`""` for absent or
non-string values). -/
def getStr (params : Params) (k : String) : String :=
  match List.lookup k params with
  | some (JsonVal.str s) => s
  | _ => ""

/-- Python `params.get(k, [])` read back as a list of strings (absent or
non-array values give `[]`; non-string elements are skipped, cf. the
module-level note on dynamic typing). -/
def getStrList (params : Params) (k : String) : List String :=
  match List.lookup k params with
  | some (JsonVal.arr xs) =>
      xs.filterMap (fun v => match v with | JsonVal.str s => some s | _ => none)
  | _ => []

/-- The `seen`/`names` deduplication loop inside `_action_label`'s
`select_muscles` branch. -/
def dedupMeshNames (mesh_ids : List String) : List String :=
  (mesh_ids.foldl
    (fun (acc : List String × List String) mid =>
      let base := rstripChars (rstripChars mid (fun c => c == 'l' || c == 'r')) (fun c => c == '.')
      if acc.1.contains base then acc
      else (acc.1 ++ [base], acc.2 ++ [rsplitBefore (format_mesh_id mid) " ("]))
    ([], [])).2

/-- `_action_label` from `loop.py`. -/
def action_label (name : String) (params : Params) (default_label : String) : String :=
  if name == "select_muscles" then
    let mesh_ids := getStrList params "meshIds"
    if mesh_ids.isEmpty then default_label
    else
      let names := dedupMeshNames mesh_ids
      let display := String.intercalate ", " (names.take 4)
      let display :=
        if 4 < names.length then display ++ " +" ++ toString (names.length - 4) ++ " more"
        else display
      "Selecting " ++ display
  else if name == "update_muscle" then
    let mesh_id := getStr params "meshId"
    if mesh_id == "" then default_label
    else
      let readable := format_mesh_id mesh_id
      let condition := getStr params "condition"
      if condition == "" then "Updating " ++ readable
      else "Updating " ++ readable ++ ": " ++ condition
  else default_label

/-! ## Delta accumulation (`tool_calls_by_index`) -/

/-- `tool_calls_by_index`: a Python dict keyed by the fragment index,
modelled as an insertion-ordered association list (the code only ever reads
it through membership tests, item lookup and `sorted(keys)`). -/
abbrev ToolCallsByIndex := List (Nat × ToolCallRec)

/-- Dict item lookup `tool_calls_by_index[i]` (`none` = key absent). -/
def lookupIdx : ToolCallsByIndex → Nat → Option ToolCallRec
  | [], _ => none
  | (j, tc) :: rest, i => if j = i then some tc else lookupIdx rest i

/-- Dict item assignment `tool_calls_by_index[i] = tc` for a present key. -/
def setIdx (m : ToolCallsByIndex) (i : Nat) (tc : ToolCallRec) : ToolCallsByIndex :=
  m.map (fun p => (p.1, if p.1 = i then tc else p.2))

/-- The three per-fragment updates applied to an existing entry:
a non-empty id overwrites, a non-empty function name overwrites, a non-empty
argument fragment is appended. -/
def updateRec (tc : ToolCallRec) (d : ToolCallDelta) : ToolCallRec :=
  let tc1 := if d.id ≠ "" then { tc with id := d.id } else tc
  let tc2 := if d.name ≠ "" then { tc1 with name := d.name } else tc1
  if d.arguments ≠ "" then { tc2 with arguments := tc2.arguments ++ d.arguments } else tc2

/-- Processing of one `tc_delta` in `run_agent_stream`: create the entry on
first sight of the index (`{"id": tc_delta.id or "", "name": "", "arguments": ""}`),
then apply the three conditional updates. -/
def applyDelta (m : ToolCallsByIndex) (d : ToolCallDelta) : ToolCallsByIndex :=
  let m1 := match lookupIdx m d.index with
    | some _ => m
    | none => m ++ [(d.index, ⟨d.id, "", ""⟩)]
  let tc := (lookupIdx m1 d.index).getD ⟨"", "", ""⟩
  setIdx m1 d.index (updateRec tc d)

/-- Accumulation of a whole fragment stream from the empty dict. -/
def accumDeltas (ds : List ToolCallDelta) : ToolCallsByIndex :=
  ds.foldl applyDelta []

end ChatPT

namespace ChatPT

/-! ## Per-turn stream processing -/

/-- The transient per-turn accumulation state of `run_agent_stream`
(the locals `tool_calls_by_index`, `turn_text`, `finish_reason`,
`thinking_resolved`). -/
structure TurnAcc where
  tool_calls_by_index : ToolCallsByIndex
  turn_text : String
  finish_reason : Option String
  thinking_resolved : Bool

def initTurnAcc : TurnAcc := ⟨[], "", none, false⟩

/-- Processing of one streamed chunk inside the `async for chunk in stream`
loop: record a truthy finish reason, resolve the thinking indicator on the
first content or tool-call fragment, stream a text delta, and fold the
tool-call delta fragments into the accumulator.  Returns the new state and
the events yielded while handling this chunk. -/
def processChunk (thinking_id : String) (st : TurnAcc) (c : Chunk) : TurnAcc × List Event :=
  let fr := match c.finish_reason with
    | some r => if r ≠ "" then some r else st.finish_reason
    | none => st.finish_reason
  let meaningful : Bool := c.content != "" || !c.tool_calls.isEmpty
  let resolved := st.thinking_resolved || meaningful
  let evs1 := if !st.thinking_resolved && meaningful
    then [Event.step_complete thinking_id "Thinking"] else []
  let evs2 := if c.content != "" then [Event.text_delta c.content] else []
  (⟨c.tool_calls.foldl applyDelta st.tool_calls_by_index,
    st.turn_text ++ c.content, fr, resolved⟩,
   evs1 ++ evs2)

/-- The whole `async for chunk in stream` loop. -/
def processChunks (thinking_id : String) : TurnAcc → List Chunk → TurnAcc × List Event
  | st, [] => (st, [])
  | st, c :: cs =>
    let r1 := processChunk thinking_id st c
    let r2 := processChunks thinking_id r1.1 cs
    (r2.1, r1.2 ++ r2.2)

/-! ## Environment (external collaborators) -/

/-- One turn's model stream: either it yields `chunks` and ends normally, or
it raises an unhandled exception after yielding the prefix
`chunksBeforeRaise` (a prefix of `[]` also covers
`client.chat.completions.create` itself raising). -/
inductive StreamResult where
  | success (chunks : List Chunk) : StreamResult
  | failure (chunksBeforeRaise : List Chunk) : StreamResult

/-- Observed outcome of executing one internal tool callable: the substep
events actually drained from the research event queue (always `[]` for tools
other than `research`), and either `str(result)` or the raised exception's
`str(e)`. -/
structure InternalOutcome where
  subEvents : List SubEvent
  result : Except String String

/-- The environment: the model completion endpoint keyed by turn number, the
`json.loads` parser, and the internal tool callables keyed by turn number and
call index (the oracle receives the parameter object the loop passes). -/
structure Env where
  streams : Nat → StreamResult
  json_loads : String → Option Params
  run_tool : Nat → Nat → Params → InternalOutcome

/-! ## Tool dispatch -/

/-- The per-invocation accumulator state of `run_agent_stream`
(`messages`, `accumulated_actions`, `final_text`, `tool_thread`). -/
structure LoopState where
  messages : List Msg
  accumulated_actions : List ActionRec
  final_text : String
  tool_thread : List Msg

def initState (messages : List Msg) : LoopState := ⟨messages, [], "", []⟩

/-- `params = json.loads(tc["arguments"]) if tc["arguments"] else {}`, with a
`json.JSONDecodeError` recovered as `{}`. -/
def paramsOf (env : Env) (tc : ToolCallRec) : Params :=
  if tc.arguments != "" then (env.json_loads tc.arguments).getD [] else []

/-- `str(result)` / `f"Tool error: {e}"`. -/
def resultString : Except String String → String
  | Except.ok s => s
  | Except.error m => "Tool error: " ++ m

/-- The synthetic acknowledgment content appended after an ACTION call. -/
def actionAck (name : String) : String :=
  "Action '" ++ name ++
    "' executed successfully and applied to the UI. Proceed with your text response to the user."

/-- Dispatch of one finalized tool call (the body of the
`for idx in sorted(tool_calls_by_index.keys())` dispatch loop):
unknown name → error tool-result; INTERNAL → `step`, execute (research also
forwards its drained queue events), `step_complete`, tool-result;
ACTION → `step`, accumulate the action, `step_complete`, acknowledgment
tool-result. -/
def dispatchCall (env : Env) (turn idx : Nat) (tc : ToolCallRec) (st : LoopState) :
    LoopState × List Event :=
  let params := paramsOf env tc
  match TOOL_REGISTRY tc.name with
  | none =>
    let tool_msg := Msg.tool tc.id ("Error: Unknown tool '" ++ tc.name ++ "'")
    ({ st with messages := st.messages ++ [tool_msg],
               tool_thread := st.tool_thread ++ [tool_msg] }, [])
  | some spec =>
    match spec.kind with
    | ToolKind.INTERNAL =>
      let step_id := tc.name ++ "_" ++ toString turn ++ "_" ++ toString idx
      let outcome := env.run_tool turn idx params
      let subEvs := if tc.name == "research" then outcome.subEvents.map SubEvent.toEvent else []
      let tool_msg := Msg.tool tc.id (resultString outcome.result)
      ({ st with messages := st.messages ++ [tool_msg],
                 tool_thread := st.tool_thread ++ [tool_msg] },
       Event.step step_id spec.step_label ::
         (subEvs ++ [Event.step_complete step_id (spec.step_label ++ " complete")]))
    | ToolKind.ACTION =>
      let label := action_label tc.name params spec.step_label
      let step_id := tc.name ++ "_" ++ toString idx
      let tool_msg := Msg.tool tc.id (actionAck tc.name)
      ({ st with messages := st.messages ++ [tool_msg],
                 accumulated_actions := st.accumulated_actions ++ [⟨tc.name, params⟩],
                 tool_thread := st.tool_thread ++ [tool_msg] },
       [Event.step step_id label, Event.step_complete step_id (label ++ " complete")])

/-- The dispatch loop over the sorted key list.  A key absent from the dict
cannot occur (the keys are exactly the dict's keys) and is skipped. -/
def dispatchCalls (env : Env) (turn : Nat) (keys : List Nat) (tcbi : ToolCallsByIndex)
    (st : LoopState) : LoopState × List Event :=
  match keys with
  | [] => (st, [])
  | i :: rest =>
    match lookupIdx tcbi i with
    | none => dispatchCalls env turn rest tcbi st
    | some tc =>
      let r1 := dispatchCall env turn i tc st
      let r2 := dispatchCalls env turn rest tcbi r1.1
      (r2.1, r1.2 ++ r2.2)

/-! ## The turn state machine -/

/-- `sorted(...)` on the key list (ascending insertion sort). -/
def insertKey (i : Nat) : List Nat → List Nat
  | [] => [i]
  | j :: js => if i ≤ j then i :: j :: js else j :: insertKey i js

def sortKeys : List Nat → List Nat
  | [] => []
  | i :: is => insertKey i (sortKeys is)

/-- How one iteration of `for _turn in range(MAX_TURNS)` ends: fall through
to the next turn, `break` (no tool calls), or an unhandled exception
propagating to the `except` clause. -/
inductive TurnExit where
  | next : TurnExit
  | broke : TurnExit
  | failed : TurnExit
deriving DecidableEq

def thinkingId (turn : Nat) : String := "thinking_" ++ toString turn

/-- The tool-call dict accumulated over a turn's chunks (how
`tool_calls_by_index` looks at the end of the stream loop). -/
def accumToolCalls (chunks : List Chunk) : ToolCallsByIndex :=
  chunks.foldl (fun m c => c.tool_calls.foldl applyDelta m) []

/-- Rest of a successful turn after the stream loop: resolve a dangling
thinking indicator, fold `turn_text` into `final_text`, `break` when no tool
calls accumulated, otherwise append the synthesized assistant message to
history and tool-thread and dispatch every call in ascending index order. -/
def runTurnSuccess (env : Env) (turn : Nat) (st : LoopState) (chunks : List Chunk) :
    LoopState × List Event × TurnExit :=
  let tid := thinkingId turn
  let r := processChunks tid initTurnAcc chunks
  let acc := r.1
  let evs2 := if acc.thinking_resolved then []
    else [Event.step_complete tid "Thinking"]
  let st1 := { st with final_text := st.final_text ++ acc.turn_text }
  if acc.tool_calls_by_index.isEmpty then
    (st1, Event.step tid "Thinking..." :: (r.2 ++ evs2), TurnExit.broke)
  else
    let sorted_keys := sortKeys (acc.tool_calls_by_index.map Prod.fst)
    let asst_calls := sorted_keys.filterMap (fun i => lookupIdx acc.tool_calls_by_index i)
    let assistant_msg := Msg.assistant
      (if acc.turn_text != "" then some acc.turn_text else none) asst_calls
    let st2 := { st1 with messages := st1.messages ++ [assistant_msg],
                          tool_thread := st1.tool_thread ++ [assistant_msg] }
    let r3 := dispatchCalls env turn sorted_keys acc.tool_calls_by_index st2
    (r3.1, Event.step tid "Thinking..." :: (r.2 ++ evs2 ++ r3.2), TurnExit.next)

/-- One iteration of the turn loop: emit the thinking `step`, request the
model stream, process it.  A stream that raises propagates the exception
after the events already yielded; the partially accumulated `turn_text` is
local to the turn and is discarded, so the loop state is unchanged. -/
def runTurn (env : Env) (turn : Nat) (st : LoopState) : LoopState × List Event × TurnExit :=
  match env.streams turn with
  | StreamResult.failure pfx =>
    (st, Event.step (thinkingId turn) "Thinking..." ::
          (processChunks (thinkingId turn) initTurnAcc pfx).2, TurnExit.failed)
  | StreamResult.success chunks => runTurnSuccess env turn st chunks

/-- Aggregate result of the `for _turn in range(MAX_TURNS)` loop wrapped in
`try`: the events yielded, the loop state, whether the `except` clause was
entered, and how many turns began executing (instrumentation for the
MAX_TURNS bound; not program state). -/
structure LoopOut where
  events : List Event
  state : LoopState
  failed : Bool
  turns : Nat

def MAX_TURNS : Nat := 10

/-- The turn loop with `fuel` remaining iterations, the current turn number
and the current state. -/
def runLoop (env : Env) : Nat → Nat → LoopState → LoopOut
  | 0, _, st => ⟨[], st, false, 0⟩
  | fuel + 1, turn, st =>
    let r := runTurn env turn st
    match r.2.2 with
    | TurnExit.failed => ⟨r.2.1, r.1, true, 1⟩
    | TurnExit.broke => ⟨r.2.1, r.1, false, 1⟩
    | TurnExit.next =>
      let o := runLoop env fuel (turn + 1) r.1
      ⟨r.2.1 ++ o.events, o.state, o.failed, o.turns + 1⟩

/-- The fallback apology installed by the `except` clause when no text had
accumulated. -/
def APOLOGY : String :=
  "Something went wrong processing your request. Please try again."

/-- `run_agent_stream`: run up to `MAX_TURNS` turns from the caller's message
history, recover any loop failure into the apology text when no text
accumulated, and always emit the terminal `done` event. -/
def run_agent_stream (env : Env) (messages : List Msg) : List Event :=
  let o := runLoop env MAX_TURNS 0 (initState messages)
  let final_text := if o.failed && o.state.final_text == "" then APOLOGY else o.state.final_text
  o.events ++ [Event.done final_text o.state.accumulated_actions o.state.tool_thread]

/-! ## Observables and specification helpers -/

/-- The fragments of a stream that carry index `i`, in arrival order. -/
def deltasFor (ds : List ToolCallDelta) (i : Nat) : List ToolCallDelta :=
  ds.filter (fun d => d.index == i)

/-- Left-to-right concatenation of a list of strings. -/
def joinAll (ss : List String) : String := ss.foldl (· ++ ·) ""

/-- The last non-empty string of a list (`""` if there is none). -/
def lastNonEmpty (ss : List String) : String :=
  ss.foldl (fun a s => if s ≠ "" then s else a) ""

/-- One step of the index-`i` projection of the accumulation. -/
def stepAt (o : Option ToolCallRec) (d : ToolCallDelta) : Option ToolCallRec :=
  some (updateRec (o.getD ⟨"", "", ""⟩) d)

def Event.isDone : Event → Bool
  | Event.done _ _ _ => true
  | _ => false

def isStepWith (t : String) : Event → Bool
  | Event.step tool _ => tool == t
  | _ => false

def isSCWith (t : String) : Event → Bool
  | Event.step_complete tool _ => tool == t
  | _ => false

def isTextDelta : Event → Bool
  | Event.text_delta _ => true
  | _ => false

/-- Number of `step` events whose correlation id (`tool` field) is `t`. -/
def countStepWith (evs : List Event) (t : String) : Nat := evs.countP (isStepWith t)

/-- Number of `step_complete` events whose correlation id is `t`. -/
def countStepCompleteWith (evs : List Event) (t : String) : Nat := evs.countP (isSCWith t)

/-- Concatenation, in emission order, of the `text` fields of all
`text_delta` events. -/
def textDeltaConcat (evs : List Event) : String :=
  evs.foldl (fun a e => match e with | Event.text_delta s => a ++ s | _ => a) ""

/-- A minimal tool-call chunk: one ACTION tool call (`update_muscle`) at
index 0 with the given call id and no arguments. -/
def chunkActionCall (cid : String) : Chunk := ⟨"", [⟨0, cid, "update_muscle", ""⟩], none⟩

/-- Environment for the C2 counterexample: two turns each calling
`update_muscle` at index 0, then a raising stream. -/
def envC2 : Env :=
  ⟨fun t => if t = 0 then StreamResult.success [chunkActionCall "ca"]
    else if t = 1 then StreamResult.success [chunkActionCall "cb"]
    else StreamResult.failure [],
   fun _ => none, fun _ _ _ => ⟨[], Except.ok "ok"⟩⟩

/-- Environment whose model never produces content or tool calls. -/
def envQuiet : Env :=
  ⟨fun _ => StreamResult.success [], fun _ => none, fun _ _ _ => ⟨[], Except.ok "ok"⟩⟩

/-- Environment whose model requests an `update_muscle` call on each of the
first ten turns and nothing afterwards. -/
def envBusy : Env :=
  ⟨fun t => if t < 10 then StreamResult.success [chunkActionCall "ca"]
    else StreamResult.success [],
   fun _ => none, fun _ _ _ => ⟨[], Except.ok "ok"⟩⟩

/-- Environment whose first model stream raises immediately. -/
def envFail : Env :=
  ⟨fun _ => StreamResult.failure [], fun _ => none, fun _ _ _ => ⟨[], Except.ok "ok"⟩⟩

/-- Environment whose first model stream yields only the text "hi". -/
def envText : Env :=
  ⟨fun t => if t = 0 then StreamResult.success [⟨"hi", [], none⟩]
    else StreamResult.success [],
   fun _ => none, fun _ _ _ => ⟨[], Except.ok "ok"⟩⟩

/-! ## Characterization of the delta accumulator -/

theorem lookupIdx_setIdx (m : ToolCallsByIndex) (j : Nat) (tc : ToolCallRec) (i : Nat) :
    lookupIdx (setIdx m j tc) i =
      if j = i then (lookupIdx m i).map (fun _ => tc) else lookupIdx m i := by
  induction m with
  | nil => simp [setIdx, lookupIdx]
  | cons p rest ih =>
    obtain ⟨k, v⟩ := p
    simp only [setIdx, List.map_cons, lookupIdx] at ih ⊢
    by_cases hk : k = i
    · subst hk
      by_cases hj : j = k
      · subst hj
        simp
      · have hj' : ¬ k = j := fun h => hj h.symm
        simp [hj, hj']
    · by_cases hj : j = i
      · simp [hk, hj] at ih ⊢
        exact ih
      · simp [hk, hj] at ih ⊢
        exact ih

theorem lookupIdx_append_single (m : ToolCallsByIndex) (j : Nat) (tc : ToolCallRec) (i : Nat) :
    lookupIdx (m ++ [(j, tc)]) i =
      match lookupIdx m i with
      | some t => some t
      | none => if j = i then some tc else none := by
  induction m with
  | nil => simp [lookupIdx]
  | cons p rest ih =>
    obtain ⟨k, v⟩ := p
    by_cases hki : k = i
    · simp [lookupIdx, hki]
    · simp [lookupIdx, hki, ih]

theorem updateRec_create (d : ToolCallDelta) :
    updateRec ⟨d.id, "", ""⟩ d = updateRec ⟨"", "", ""⟩ d := by
  by_cases h : d.id = "" <;> simp [updateRec, h]

theorem lookupIdx_applyDelta (m : ToolCallsByIndex) (d : ToolCallDelta) (i : Nat) :
    lookupIdx (applyDelta m d) i =
      if d.index = i then some (updateRec ((lookupIdx m i).getD ⟨"", "", ""⟩) d)
      else lookupIdx m i := by
  unfold applyDelta
  cases h : lookupIdx m d.index with
  | some tc =>
    simp only [h]
    rw [lookupIdx_setIdx]
    by_cases hi : d.index = i
    · subst hi
      simp [h]
    · simp [hi]
  | none =>
    simp only [h]
    have hl : lookupIdx (m ++ [(d.index, (⟨d.id, "", ""⟩ : ToolCallRec))]) d.index =
        some ⟨d.id, "", ""⟩ := by
      rw [lookupIdx_append_single, h]
      simp
    rw [hl]
    rw [lookupIdx_setIdx]
    by_cases hi : d.index = i
    · subst hi
      simp [lookupIdx_append_single, h, updateRec_create]
    · simp only [hi, if_false, lookupIdx_append_single, if_neg hi]
      cases lookupIdx m i <;> rfl

theorem lookupIdx_foldl_applyDelta (ds : List ToolCallDelta) (m : ToolCallsByIndex) (i : Nat) :
    lookupIdx (ds.foldl applyDelta m) i = (deltasFor ds i).foldl stepAt (lookupIdx m i) := by
  induction ds generalizing m with
  | nil => simp [deltasFor]
  | cons d ds ih =>
    simp only [List.foldl_cons]
    rw [ih]
    by_cases hi : d.index = i
    · have : deltasFor (d :: ds) i = d :: deltasFor ds i := by
        simp [deltasFor, List.filter_cons, hi]
      rw [this]
      simp only [List.foldl_cons]
      rw [lookupIdx_applyDelta]
      simp [hi, stepAt]
    · have : deltasFor (d :: ds) i = deltasFor ds i := by
        simp [deltasFor, List.filter_cons, hi]
      rw [this, lookupIdx_applyDelta]
      simp [hi]

theorem foldl_stepAt_some (fs : List ToolCallDelta) (tc : ToolCallRec) :
    fs.foldl stepAt (some tc) = some (fs.foldl updateRec tc) := by
  induction fs generalizing tc with
  | nil => rfl
  | cons d fs ih => simp [stepAt, ih]

/-- The accumulated record at index `i` is exactly the fold of `i`'s own
fragments (in arrival order) over the fresh record, and absent when no
fragment carried `i`. -/
theorem lookupIdx_accumDeltas (ds : List ToolCallDelta) (i : Nat) :
    lookupIdx (accumDeltas ds) i =
      match deltasFor ds i with
      | [] => none
      | _ :: _ => some ((deltasFor ds i).foldl updateRec ⟨"", "", ""⟩) := by
  unfold accumDeltas
  rw [lookupIdx_foldl_applyDelta]
  cases h : deltasFor ds i with
  | nil => simp [lookupIdx]
  | cons d fs =>
    simp only [List.foldl_cons, lookupIdx]
    rw [show stepAt none d = some (updateRec ⟨"", "", ""⟩ d) from rfl]
    rw [foldl_stepAt_some]

theorem updateRec_arguments (z : ToolCallRec) (d : ToolCallDelta) :
    (updateRec z d).arguments = z.arguments ++ d.arguments := by
  by_cases h1 : d.id = "" <;> by_cases h2 : d.name = "" <;> by_cases h3 : d.arguments = "" <;>
    simp [updateRec, h1, h2, h3]

theorem updateRec_id (z : ToolCallRec) (d : ToolCallDelta) :
    (updateRec z d).id = if d.id ≠ "" then d.id else z.id := by
  by_cases h1 : d.id = "" <;> by_cases h2 : d.name = "" <;> by_cases h3 : d.arguments = "" <;>
    simp [updateRec, h1, h2, h3]

theorem updateRec_name (z : ToolCallRec) (d : ToolCallDelta) :
    (updateRec z d).name = if d.name ≠ "" then d.name else z.name := by
  by_cases h1 : d.id = "" <;> by_cases h2 : d.name = "" <;> by_cases h3 : d.arguments = "" <;>
    simp [updateRec, h1, h2, h3]

theorem foldl_string_append (ss : List String) (s : String) :
    ss.foldl (· ++ ·) s = s ++ ss.foldl (· ++ ·) "" := by
  induction ss generalizing s with
  | nil => simp
  | cons x xs ih =>
    simp only [List.foldl_cons]
    rw [ih, ih ("" ++ x)]
    simp [String.append_assoc]

theorem foldl_updateRec_arguments (fs : List ToolCallDelta) (z : ToolCallRec) :
    (fs.foldl updateRec z).arguments = z.arguments ++ joinAll (fs.map (fun d => d.arguments)) := by
  induction fs generalizing z with
  | nil => simp [joinAll]
  | cons d fs ih =>
    simp only [List.foldl_cons, List.map_cons]
    rw [ih, updateRec_arguments]
    show z.arguments ++ d.arguments ++ _ = z.arguments ++ joinAll (d.arguments :: _)
    unfold joinAll
    simp only [List.foldl_cons]
    rw [foldl_string_append (fs.map fun d => d.arguments) ("" ++ d.arguments)]
    simp [String.append_assoc]

theorem foldl_updateRec_id (fs : List ToolCallDelta) (z : ToolCallRec) :
    (fs.foldl updateRec z).id = fs.foldl (fun a d => if d.id ≠ "" then d.id else a) z.id := by
  induction fs generalizing z with
  | nil => rfl
  | cons d fs ih => simp [ih, updateRec_id]

theorem foldl_updateRec_name (fs : List ToolCallDelta) (z : ToolCallRec) :
    (fs.foldl updateRec z).name = fs.foldl (fun a d => if d.name ≠ "" then d.name else a) z.name := by
  induction fs generalizing z with
  | nil => rfl
  | cons d fs ih => simp [ih, updateRec_name]

theorem empty_append_str (s : String) : "" ++ s = s := by
  cases s
  rfl

/-- The per-chunk accumulation performed by the turn loop equals the plain
accumulation of the concatenated fragment stream. -/
theorem accumToolCalls_eq_accumDeltas (chunks : List Chunk) :
    accumToolCalls chunks = accumDeltas (chunks.map Chunk.tool_calls).flatten := by
  have gen : ∀ (cs : List Chunk) (m : ToolCallsByIndex),
      cs.foldl (fun m c => c.tool_calls.foldl applyDelta m) m =
        ((cs.map Chunk.tool_calls).flatten).foldl applyDelta m := by
    intro cs
    induction cs with
    | nil => intro m; rfl
    | cons c cs ih =>
      intro m
      simp only [List.foldl_cons, List.map_cons, List.flatten_cons, List.foldl_append]
      exact ih _
  exact gen chunks []

/-- C4: the finalized argument text at an index is the concatenation, in
arrival order, of exactly the argument fragments carrying that index;
fragments carrying other indices do not influence it (the result is a
function of the filtered sub-stream `deltasFor ds i` alone). -/
theorem C4_arguments_concat (ds : List ToolCallDelta) (i : Nat) (tc : ToolCallRec)
    (h : lookupIdx (accumDeltas ds) i = some tc) :
    tc.arguments = joinAll ((deltasFor ds i).map (fun d => d.arguments)) := by
  rw [lookupIdx_accumDeltas] at h
  cases hfs : deltasFor ds i with
  | nil =>
    rw [hfs] at h
    cases h
  | cons d fs =>
    rw [hfs] at h
    simp only [Option.some.injEq] at h
    rw [← h, foldl_updateRec_arguments, ← hfs]
    exact empty_append_str _

theorem C4_arguments_concat_witness :
    lookupIdx (accumDeltas
        [⟨0, "id0", "", ""⟩, ⟨1, "id1", "", ""⟩, ⟨0, "", "toolA", ""⟩, ⟨1, "", "toolB", "u1"⟩,
         ⟨0, "", "", "a1"⟩, ⟨1, "", "", "u2"⟩, ⟨0, "", "", "a2"⟩, ⟨0, "", "", "a3"⟩]) 0 =
      some ⟨"id0", "toolA", "a1a2a3"⟩ ∧
    (⟨"id0", "toolA", "a1a2a3"⟩ : ToolCallRec).arguments =
      joinAll ((deltasFor
        [⟨0, "id0", "", ""⟩, ⟨1, "id1", "", ""⟩, ⟨0, "", "toolA", ""⟩, ⟨1, "", "toolB", "u1"⟩,
         ⟨0, "", "", "a1"⟩, ⟨1, "", "", "u2"⟩, ⟨0, "", "", "a2"⟩, ⟨0, "", "", "a3"⟩] 0).map
        (fun d => d.arguments)) :=
  ⟨by decide, C4_arguments_concat _ 0 ⟨"id0", "toolA", "a1a2a3"⟩ (by decide)⟩

/-- C5 as stated is false: a later non-empty id (and name) fragment for the
same index *does* overwrite the earlier one.  With fragments
`⟨0,"a","f","x"⟩, ⟨0,"b","g","y"⟩` the finalized record is
`⟨"b","g","xy"⟩`, not the record `⟨"a","f","xy"⟩` that "first non-empty id
and name persist" predicts. -/
theorem C5_counterexample :
    lookupIdx (accumDeltas [⟨0, "a", "f", "x"⟩, ⟨0, "b", "g", "y"⟩]) 0 =
      some ⟨"b", "g", "xy"⟩ ∧
    lookupIdx (accumDeltas [⟨0, "a", "f", "x"⟩, ⟨0, "b", "g", "y"⟩]) 0 ≠
      some ⟨"a", "f", "xy"⟩ := by
  decide

/-- C5 (amended): the finalized id and name at an index are the *last*
non-empty id and the last non-empty name that arrived for that index; empty
fragments never overwrite them. -/
theorem C5_last_nonempty_persists (ds : List ToolCallDelta) (i : Nat) (tc : ToolCallRec)
    (h : lookupIdx (accumDeltas ds) i = some tc) :
    tc.id = lastNonEmpty ((deltasFor ds i).map (fun d => d.id)) ∧
    tc.name = lastNonEmpty ((deltasFor ds i).map (fun d => d.name)) := by
  rw [lookupIdx_accumDeltas] at h
  cases hfs : deltasFor ds i with
  | nil =>
    rw [hfs] at h
    cases h
  | cons d fs =>
    rw [hfs] at h
    simp only [Option.some.injEq] at h
    constructor
    · rw [← h, foldl_updateRec_id, ← hfs]
      unfold lastNonEmpty
      rw [List.foldl_map]
    · rw [← h, foldl_updateRec_name, ← hfs]
      unfold lastNonEmpty
      rw [List.foldl_map]

theorem C5_last_nonempty_persists_witness :
    lookupIdx (accumDeltas [⟨0, "a", "f", "x"⟩, ⟨0, "b", "g", "y"⟩, ⟨0, "", "", "z"⟩]) 0 =
      some ⟨"b", "g", "xyz"⟩ ∧
    (⟨"b", "g", "xyz"⟩ : ToolCallRec).id =
      lastNonEmpty ((deltasFor [⟨0, "a", "f", "x"⟩, ⟨0, "b", "g", "y"⟩, ⟨0, "", "", "z"⟩] 0).map
        (fun d => d.id)) ∧
    (⟨"b", "g", "xyz"⟩ : ToolCallRec).name =
      lastNonEmpty ((deltasFor [⟨0, "a", "f", "x"⟩, ⟨0, "b", "g", "y"⟩, ⟨0, "", "", "z"⟩] 0).map
        (fun d => d.name)) :=
  ⟨by decide,
   (C5_last_nonempty_persists _ 0 ⟨"b", "g", "xyz"⟩ (by decide)).1,
   (C5_last_nonempty_persists _ 0 ⟨"b", "g", "xyz"⟩ (by decide)).2⟩

/-! ## Dispatch-level claims -/

/-- C6: dispatching an ACTION-kind tool call performs no local execution
(the result does not consult the tool callable oracle at all): the state
changes are exactly one `{name, params}` appended to the action accumulator
and one acknowledgment tool-result appended to history and tool-thread
(`final_text` untouched), and the events are exactly one `step` and one
`step_complete`. -/
theorem C6_action_frame (env : Env) (turn idx : Nat) (tc : ToolCallRec) (st : LoopState)
    (spec : ToolSpec) (hreg : TOOL_REGISTRY tc.name = some spec)
    (hkind : spec.kind = ToolKind.ACTION) :
    dispatchCall env turn idx tc st =
      ({ messages := st.messages ++ [Msg.tool tc.id (actionAck tc.name)],
         accumulated_actions := st.accumulated_actions ++ [⟨tc.name, paramsOf env tc⟩],
         final_text := st.final_text,
         tool_thread := st.tool_thread ++ [Msg.tool tc.id (actionAck tc.name)] },
       [Event.step (tc.name ++ "_" ++ toString idx)
          (action_label tc.name (paramsOf env tc) spec.step_label),
        Event.step_complete (tc.name ++ "_" ++ toString idx)
          (action_label tc.name (paramsOf env tc) spec.step_label ++ " complete")]) := by
  obtain ⟨n, k, lbl⟩ := spec
  cases hkind
  unfold dispatchCall
  rw [hreg]

theorem C6_action_frame_witness :
    dispatchCall ⟨fun _ => StreamResult.success [], fun _ => none, fun _ _ _ => ⟨[], Except.ok "ok"⟩⟩
        0 1 ⟨"call_1", "update_muscle", ""⟩ (initState []) =
      ({ messages := [Msg.tool "call_1" (actionAck "update_muscle")],
         accumulated_actions := [⟨"update_muscle", []⟩],
         final_text := "",
         tool_thread := [Msg.tool "call_1" (actionAck "update_muscle")] },
       [Event.step "update_muscle_1" "Updating muscle state",
        Event.step_complete "update_muscle_1" "Updating muscle state complete"]) := by
  exact C6_action_frame _ 0 1 ⟨"call_1", "update_muscle", ""⟩ (initState [])
    ⟨"update_muscle", ToolKind.ACTION, "Updating muscle state"⟩ rfl rfl

/-- Every dispatched call, of any kind (unknown, INTERNAL or ACTION),
appends exactly one message to history. -/
theorem dispatchCall_messages_length (env : Env) (turn idx : Nat) (tc : ToolCallRec)
    (st : LoopState) :
    ((dispatchCall env turn idx tc st).1).messages.length = st.messages.length + 1 := by
  unfold dispatchCall
  cases TOOL_REGISTRY tc.name with
  | none => simp
  | some spec =>
    obtain ⟨n, k, lbl⟩ := spec
    cases k <;> simp

/-- C7: an unknown tool name (including the empty name of an index that
never received one) raises nothing: the dispatch appends the
`Error: Unknown tool '<name>'` tool-result to history (and tool-thread) and
emits no event; the registry has no entry for `""`; and the dispatch loop
processes every key — one appended tool-result per finalized call, none
dropped. -/
theorem C7_unknown_tool (env : Env) (turn idx : Nat) (tc : ToolCallRec) (st : LoopState)
    (h : TOOL_REGISTRY tc.name = none) :
    dispatchCall env turn idx tc st =
      ({ st with
          messages := st.messages ++ [Msg.tool tc.id ("Error: Unknown tool '" ++ tc.name ++ "'")],
          tool_thread :=
            st.tool_thread ++ [Msg.tool tc.id ("Error: Unknown tool '" ++ tc.name ++ "'")] },
       []) ∧
    TOOL_REGISTRY "" = none ∧
    ∀ (keys : List Nat) (tcbi : ToolCallsByIndex) (st' : LoopState),
      (∀ i ∈ keys, (lookupIdx tcbi i).isSome = true) →
      ((dispatchCalls env turn keys tcbi st').1).messages.length =
        st'.messages.length + keys.length := by
  refine ⟨?_, rfl, ?_⟩
  · unfold dispatchCall
    rw [h]
  · intro keys
    induction keys with
    | nil => intro tcbi st' _; simp [dispatchCalls]
    | cons i rest ih =>
      intro tcbi st' hall
      have hi := hall i (List.mem_cons_self i rest)
      cases hl : lookupIdx tcbi i with
      | none => rw [hl] at hi; cases hi
      | some tc' =>
        have hrest : ∀ j ∈ rest, (lookupIdx tcbi j).isSome = true :=
          fun j hj => hall j (List.mem_cons_of_mem i hj)
        simp only [dispatchCalls, hl]
        rw [ih tcbi _ hrest, dispatchCall_messages_length]
        simp only [List.length_cons]
        omega

theorem C7_unknown_tool_witness :
    dispatchCall ⟨fun _ => StreamResult.success [], fun _ => none, fun _ _ _ => ⟨[], Except.ok "ok"⟩⟩
        0 0 ⟨"c9", "bogus", ""⟩ (initState []) =
      ({ initState [] with
          messages := [Msg.tool "c9" "Error: Unknown tool 'bogus'"],
          tool_thread := [Msg.tool "c9" "Error: Unknown tool 'bogus'"] },
       []) ∧
    TOOL_REGISTRY "" = none ∧
    ((dispatchCalls ⟨fun _ => StreamResult.success [], fun _ => none,
        fun _ _ _ => ⟨[], Except.ok "ok"⟩⟩ 0 [0] [(0, ⟨"c9", "bogus", ""⟩)]
        (initState [])).1).messages.length = 1 := by
  have h := C7_unknown_tool
    ⟨fun _ => StreamResult.success [], fun _ => none, fun _ _ _ => ⟨[], Except.ok "ok"⟩⟩
    0 0 ⟨"c9", "bogus", ""⟩ (initState []) rfl
  exact ⟨h.1, h.2.1, by
    have := h.2.2 [0] [(0, ⟨"c9", "bogus", ""⟩)] (initState []) (by decide)
    simpa using this⟩

/-- C8: dispatching an INTERNAL tool call lets no exception escape: argument
text that fails to parse as JSON makes the callable run with the empty
parameter object; a callable raising with message `m` yields the tool-result
content `"Tool error: " ++ m`; and a turn whose stream succeeds never exits
through the failure path, whatever its tools do — the loop proceeds. -/
theorem C8_internal_error_recovery (env : Env) (turn idx : Nat) (tc : ToolCallRec)
    (st : LoopState) (spec : ToolSpec) (hreg : TOOL_REGISTRY tc.name = some spec)
    (hkind : spec.kind = ToolKind.INTERNAL) :
    (tc.arguments ≠ "" → env.json_loads tc.arguments = none →
      (dispatchCall env turn idx tc st).1.messages =
        st.messages ++ [Msg.tool tc.id (resultString (env.run_tool turn idx []).result)]) ∧
    (∀ m : String, (env.run_tool turn idx (paramsOf env tc)).result = Except.error m →
      (dispatchCall env turn idx tc st).1.messages =
        st.messages ++ [Msg.tool tc.id ("Tool error: " ++ m)]) ∧
    (∀ chunks, env.streams turn = StreamResult.success chunks →
      (runTurn env turn st).2.2 ≠ TurnExit.failed) := by
  obtain ⟨n, k, lbl⟩ := spec
  cases hkind
  have heq : dispatchCall env turn idx tc st =
      ({ st with
          messages := st.messages ++
            [Msg.tool tc.id (resultString (env.run_tool turn idx (paramsOf env tc)).result)],
          tool_thread := st.tool_thread ++
            [Msg.tool tc.id (resultString (env.run_tool turn idx (paramsOf env tc)).result)] },
        Event.step (tc.name ++ "_" ++ toString turn ++ "_" ++ toString idx) lbl ::
          ((if tc.name == "research"
              then (env.run_tool turn idx (paramsOf env tc)).subEvents.map SubEvent.toEvent
              else []) ++
            [Event.step_complete (tc.name ++ "_" ++ toString turn ++ "_" ++ toString idx)
              (lbl ++ " complete")])) := by
    unfold dispatchCall
    rw [hreg]
  refine ⟨?_, ?_, ?_⟩
  · intro h1 h2
    have hp : paramsOf env tc = [] := by
      simp [paramsOf, h1, h2]
    rw [heq]
    simp [hp]
  · intro m hm
    rw [heq]
    simp [hm, resultString]
  · intro chunks hs
    unfold runTurn
    rw [hs]
    unfold runTurnSuccess
    by_cases he : (processChunks (thinkingId turn) initTurnAcc chunks).1.tool_calls_by_index.isEmpty
    · simp [he]
    · simp [he]

theorem C8_internal_error_recovery_witness :
    (dispatchCall ⟨fun _ => StreamResult.success [], fun _ => none,
        fun _ _ _ => ⟨[], Except.error "bad query"⟩⟩
      0 0 ⟨"c2", "get_patient_muscle_context", "not json"⟩ (initState [])).1.messages =
        [Msg.tool "c2" (resultString
          ((⟨fun _ => StreamResult.success [], fun _ => none,
             fun _ _ _ => ⟨[], Except.error "bad query"⟩⟩ : Env).run_tool 0 0 []).result)] ∧
    (dispatchCall ⟨fun _ => StreamResult.success [], fun _ => none,
        fun _ _ _ => ⟨[], Except.error "bad query"⟩⟩
      0 0 ⟨"c2", "get_patient_muscle_context", "not json"⟩ (initState [])).1.messages =
        [Msg.tool "c2" ("Tool error: " ++ "bad query")] ∧
    (runTurn ⟨fun _ => StreamResult.success [], fun _ => none,
        fun _ _ _ => ⟨[], Except.error "bad query"⟩⟩ 0 (initState [])).2.2 ≠ TurnExit.failed := by
  have h := C8_internal_error_recovery
    ⟨fun _ => StreamResult.success [], fun _ => none, fun _ _ _ => ⟨[], Except.error "bad query"⟩⟩
    0 0 ⟨"c2", "get_patient_muscle_context", "not json"⟩ (initState [])
    ⟨"get_patient_muscle_context", ToolKind.INTERNAL, "Loading patient data"⟩ rfl rfl
  exact ⟨by simpa using h.1 (by decide) rfl,
         by simpa using h.2.1 "bad query" rfl,
         h.2.2 [] rfl⟩

/-! ## Event observables -/

theorem str_append_empty (s : String) : s ++ "" = s := by
  cases s with
  | mk data =>
    show String.mk (data ++ []) = String.mk data
    rw [List.append_nil]

theorem tdc_foldl_init (l : List Event) :
    ∀ s : String,
      l.foldl (fun a e => match e with | Event.text_delta t => a ++ t | _ => a) s =
        s ++ l.foldl (fun a e => match e with | Event.text_delta t => a ++ t | _ => a) "" := by
  induction l with
  | nil =>
    intro s
    exact (str_append_empty s).symm
  | cons x xs ih =>
    intro s
    simp only [List.foldl_cons]
    rw [ih, ih ((fun a e => match e with | Event.text_delta t => a ++ t | _ => a) "" x)]
    cases x <;> simp [empty_append_str, String.append_assoc]

theorem textDeltaConcat_cons (e : Event) (evs : List Event) :
    textDeltaConcat (e :: evs) =
      (match e with | Event.text_delta s => s | _ => "") ++ textDeltaConcat evs := by
  unfold textDeltaConcat
  simp only [List.foldl_cons]
  rw [tdc_foldl_init]
  cases e <;> simp [empty_append_str]

theorem textDeltaConcat_append (l1 l2 : List Event) :
    textDeltaConcat (l1 ++ l2) = textDeltaConcat l1 ++ textDeltaConcat l2 := by
  induction l1 with
  | nil => simp [textDeltaConcat, empty_append_str]
  | cons e l1 ih =>
    simp only [List.cons_append, textDeltaConcat_cons, ih, String.append_assoc]

theorem textDeltaConcat_of_no_text (evs : List Event)
    (h : evs.countP isTextDelta = 0) : textDeltaConcat evs = "" := by
  induction evs with
  | nil => rfl
  | cons e rest ih =>
    rw [List.countP_cons] at h
    rw [textDeltaConcat_cons]
    cases e with
    | text_delta s => simp [isTextDelta] at h
    | step t l => simp only [List.countP_cons] at *; rw [ih (by omega)]; rfl
    | step_complete t l => rw [ih (by omega)]; rfl
    | substep t l => rw [ih (by omega)]; rfl
    | substep_complete t l => rw [ih (by omega)]; rfl
    | done c a th => rw [ih (by omega)]; rfl

/-- Forwarded research-queue events are `substep`/`substep_complete` and
match none of the step/text/done observables. -/
theorem countP_map_subEvents (p : Event → Bool) (h : ∀ s : SubEvent, p s.toEvent = false)
    (l : List SubEvent) : (l.map SubEvent.toEvent).countP p = 0 := by
  rw [List.countP_eq_zero]
  intro e he
  rcases List.mem_map.mp he with ⟨s, _, rfl⟩
  simp [h s]

theorem subEvent_not_done (s : SubEvent) : Event.isDone s.toEvent = false := by
  unfold SubEvent.toEvent
  by_cases h : s.complete <;> simp [h, Event.isDone]

theorem subEvent_not_step (t : String) (s : SubEvent) : isStepWith t s.toEvent = false := by
  unfold SubEvent.toEvent
  by_cases h : s.complete <;> simp [h, isStepWith]

theorem subEvent_not_sc (t : String) (s : SubEvent) : isSCWith t s.toEvent = false := by
  unfold SubEvent.toEvent
  by_cases h : s.complete <;> simp [h, isSCWith]

theorem subEvent_not_text (s : SubEvent) : isTextDelta s.toEvent = false := by
  unfold SubEvent.toEvent
  by_cases h : s.complete <;> simp [h, isTextDelta]

/-! ## Event accounting for the chunk loop -/

theorem processChunk_events (tid : String) (st : TurnAcc) (c : Chunk) :
    (processChunk tid st c).2 =
      (if !st.thinking_resolved && (c.content != "" || !c.tool_calls.isEmpty)
        then [Event.step_complete tid "Thinking"] else []) ++
      (if c.content != "" then [Event.text_delta c.content] else []) := rfl

theorem processChunk_resolved (tid : String) (st : TurnAcc) (c : Chunk) :
    (processChunk tid st c).1.thinking_resolved =
      (st.thinking_resolved || (c.content != "" || !c.tool_calls.isEmpty)) := rfl

theorem processChunk_turn_text (tid : String) (st : TurnAcc) (c : Chunk) :
    (processChunk tid st c).1.turn_text = st.turn_text ++ c.content := rfl

theorem processChunks_nil (tid : String) (st : TurnAcc) :
    processChunks tid st [] = (st, []) := rfl

theorem processChunks_cons_fst (tid : String) (st : TurnAcc) (c : Chunk) (cs : List Chunk) :
    (processChunks tid st (c :: cs)).1 = (processChunks tid (processChunk tid st c).1 cs).1 := rfl

theorem processChunks_cons_snd (tid : String) (st : TurnAcc) (c : Chunk) (cs : List Chunk) :
    (processChunks tid st (c :: cs)).2 =
      (processChunk tid st c).2 ++ (processChunks tid (processChunk tid st c).1 cs).2 := rfl

theorem processChunks_resolved_mono (tid : String) (cs : List Chunk) (st : TurnAcc)
    (h : st.thinking_resolved = true) :
    (processChunks tid st cs).1.thinking_resolved = true := by
  induction cs generalizing st with
  | nil => exact h
  | cons c cs ih =>
    show (processChunks tid (processChunk tid st c).1 cs).1.thinking_resolved = true
    exact ih _ (by rw [processChunk_resolved, h]; rfl)

theorem processChunks_countP (tid : String) (cs : List Chunk) (st : TurnAcc)
    (p : Event → Bool) (hsc : p (Event.step_complete tid "Thinking") = false)
    (htext : ∀ s, p (Event.text_delta s) = false) :
    ((processChunks tid st cs).2).countP p = 0 := by
  induction cs generalizing st with
  | nil => rfl
  | cons c cs ih =>
    show ((processChunk tid st c).2 ++ (processChunks tid (processChunk tid st c).1 cs).2).countP p = 0
    rw [List.countP_append, ih]
    rw [processChunk_events, List.countP_append]
    split <;> split <;> simp [hsc, htext]

theorem countP_sc_singleton (t tid lbl : String) :
    List.countP (isSCWith t) [Event.step_complete tid lbl] = if t = tid then 1 else 0 := by
  by_cases h : t = tid
  · subst h
    simp [List.countP_cons, isSCWith]
  · have h2 : (tid == t) = false := beq_eq_false_iff_ne.mpr (fun hh => h hh.symm)
    simp [List.countP_cons, isSCWith, h2, h]

theorem processChunk_sc_count_resolved (tid t : String) (st : TurnAcc) (c : Chunk)
    (hb : st.thinking_resolved = true) :
    List.countP (isSCWith t) (processChunk tid st c).2 = 0 := by
  rw [processChunk_events, hb]
  simp only [Bool.not_true, Bool.false_and, if_neg (by simp : ¬(false = true)),
    List.nil_append]
  split <;> simp [isSCWith]

/-- Once the thinking indicator is resolved, the chunk loop emits no further
`step_complete`. -/
theorem processChunks_sc_count_resolved (tid : String) (cs : List Chunk) (st : TurnAcc)
    (t : String) (hb : st.thinking_resolved = true) :
    countStepCompleteWith (processChunks tid st cs).2 t = 0 := by
  induction cs generalizing st with
  | nil => rfl
  | cons c cs ih =>
    rw [processChunks_cons_snd]
    unfold countStepCompleteWith at ih ⊢
    rw [List.countP_append, processChunk_sc_count_resolved tid t st c hb,
        ih _ (by rw [processChunk_resolved, hb]; rfl)]

/-- Starting unresolved, the chunk loop emits exactly one
`step_complete thinking` when (and only when) it ends resolved, and no other
`step_complete`. -/
theorem processChunks_sc_count (tid : String) (cs : List Chunk) (st : TurnAcc) (t : String)
    (hb : st.thinking_resolved = false) :
    countStepCompleteWith (processChunks tid st cs).2 t =
      if (processChunks tid st cs).1.thinking_resolved && (t == tid) then 1 else 0 := by
  induction cs generalizing st with
  | nil =>
    rw [processChunks_nil, hb]
    simp [countStepCompleteWith]
  | cons c cs ih =>
    rw [processChunks_cons_snd, processChunks_cons_fst]
    unfold countStepCompleteWith at ih ⊢
    rw [List.countP_append]
    rw [processChunk_events, List.countP_append, hb]
    have htext : List.countP (isSCWith t)
        (if c.content != "" then [Event.text_delta c.content] else []) = 0 := by
      split <;> simp [isSCWith]
    rw [htext]
    cases hm : (c.content != "" || !c.tool_calls.isEmpty) with
    | true =>
      have hst1 : (processChunk tid st c).1.thinking_resolved = true := by
        rw [processChunk_resolved, hb, hm]
        rfl
      have hres : (processChunks tid (processChunk tid st c).1 cs).1.thinking_resolved = true :=
        processChunks_resolved_mono tid cs (processChunk tid st c).1 hst1
      have hrest := processChunks_sc_count_resolved tid cs (processChunk tid st c).1 t hst1
      unfold countStepCompleteWith at hrest
      rw [hrest, hres]
      simp only [Bool.not_false, Bool.true_and, if_pos rfl, countP_sc_singleton]
      by_cases ht : t = tid
      · subst ht
        simp [isSCWith, List.countP_cons]
      · have h2 : (t == tid) = false := beq_eq_false_iff_ne.mpr ht
        have h3 : (tid == t) = false := beq_eq_false_iff_ne.mpr (fun hh => ht hh.symm)
        simp [ht, h2, isSCWith, h3]
    | false =>
      rw [ih _ (by rw [processChunk_resolved, hb, hm]; rfl)]
      simp only [Bool.not_false, Bool.true_and, if_neg (by simp : ¬(false = true)),
        List.countP_nil]
      omega

theorem processChunk_tdc (tid : String) (st : TurnAcc) (c : Chunk) :
    textDeltaConcat (processChunk tid st c).2 = c.content := by
  rw [processChunk_events, textDeltaConcat_append]
  have h2 : textDeltaConcat (if c.content != "" then [Event.text_delta c.content] else []) =
      c.content := by
    by_cases h : c.content = ""
    · simp [h, textDeltaConcat]
    · simp only [h, bne_iff_ne, ne_eq, not_false_eq_true, if_pos]
      show textDeltaConcat [Event.text_delta c.content] = c.content
      show "" ++ c.content = c.content
      exact empty_append_str _
  rw [h2]
  split
  · show "" ++ c.content = c.content
    exact empty_append_str _
  · show "" ++ c.content = c.content
    exact empty_append_str _

theorem processChunks_turn_text (tid : String) (cs : List Chunk) (st : TurnAcc) :
    (processChunks tid st cs).1.turn_text =
      st.turn_text ++ textDeltaConcat (processChunks tid st cs).2 := by
  induction cs generalizing st with
  | nil =>
    rw [processChunks_nil]
    exact (str_append_empty _).symm
  | cons c cs ih =>
    rw [processChunks_cons_snd, processChunks_cons_fst]
    rw [ih, processChunk_turn_text, textDeltaConcat_append, processChunk_tdc,
        String.append_assoc]

/-! ## Event accounting for dispatch -/

theorem dispatchCall_countP (env : Env) (turn idx : Nat) (tc : ToolCallRec) (st : LoopState)
    (p : Event → Bool)
    (hstep : ∀ t l, p (Event.step t l) = false)
    (hsc : ∀ t l, p (Event.step_complete t l) = false)
    (hsub : ∀ s : SubEvent, p s.toEvent = false) :
    ((dispatchCall env turn idx tc st).2).countP p = 0 := by
  unfold dispatchCall
  cases TOOL_REGISTRY tc.name with
  | none => rfl
  | some spec =>
    obtain ⟨n, k, lbl⟩ := spec
    cases k with
    | INTERNAL =>
      simp only [List.countP_cons, List.countP_append, hstep, hsc,
        countP_map_subEvents p hsub]
      split <;> simp [hstep, hsc, countP_map_subEvents p hsub]
    | ACTION =>
      simp [List.countP_cons, hstep, hsc]

theorem dispatchCall_balanced (env : Env) (turn idx : Nat) (tc : ToolCallRec) (st : LoopState)
    (t : String) :
    countStepWith (dispatchCall env turn idx tc st).2 t =
      countStepCompleteWith (dispatchCall env turn idx tc st).2 t := by
  unfold countStepWith countStepCompleteWith dispatchCall
  cases TOOL_REGISTRY tc.name with
  | none => rfl
  | some spec =>
    obtain ⟨n, k, lbl⟩ := spec
    cases k with
    | INTERNAL =>
      simp only [List.countP_cons, List.countP_append, List.countP_nil,
        countP_map_subEvents _ (subEvent_not_step t),
        countP_map_subEvents _ (subEvent_not_sc t)]
      split
      · simp [countP_map_subEvents _ (subEvent_not_step t),
          countP_map_subEvents _ (subEvent_not_sc t), isStepWith, isSCWith]
      · simp [isStepWith, isSCWith]
    | ACTION =>
      simp [List.countP_cons, isStepWith, isSCWith]

theorem dispatchCall_final_text (env : Env) (turn idx : Nat) (tc : ToolCallRec)
    (st : LoopState) :
    ((dispatchCall env turn idx tc st).1).final_text = st.final_text := by
  unfold dispatchCall
  cases TOOL_REGISTRY tc.name with
  | none => rfl
  | some spec =>
    obtain ⟨n, k, lbl⟩ := spec
    cases k <;> rfl

theorem dispatchCalls_countP (env : Env) (turn : Nat) (keys : List Nat)
    (tcbi : ToolCallsByIndex) (st : LoopState) (p : Event → Bool)
    (hstep : ∀ t l, p (Event.step t l) = false)
    (hsc : ∀ t l, p (Event.step_complete t l) = false)
    (hsub : ∀ s : SubEvent, p s.toEvent = false) :
    ((dispatchCalls env turn keys tcbi st).2).countP p = 0 := by
  induction keys generalizing st with
  | nil => rfl
  | cons i rest ih =>
    unfold dispatchCalls
    cases lookupIdx tcbi i with
    | none => exact ih st
    | some tc =>
      simp only [List.countP_append, dispatchCall_countP env turn i tc st p hstep hsc hsub, ih]

theorem dispatchCalls_balanced (env : Env) (turn : Nat) (keys : List Nat)
    (tcbi : ToolCallsByIndex) (st : LoopState) (t : String) :
    countStepWith (dispatchCalls env turn keys tcbi st).2 t =
      countStepCompleteWith (dispatchCalls env turn keys tcbi st).2 t := by
  induction keys generalizing st with
  | nil => rfl
  | cons i rest ih =>
    unfold dispatchCalls
    cases lookupIdx tcbi i with
    | none => exact ih st
    | some tc =>
      unfold countStepWith countStepCompleteWith at ih ⊢
      simp only [List.countP_append]
      have h1 := dispatchCall_balanced env turn i tc st t
      unfold countStepWith countStepCompleteWith at h1
      rw [h1, ih]

theorem dispatchCalls_final_text (env : Env) (turn : Nat) (keys : List Nat)
    (tcbi : ToolCallsByIndex) (st : LoopState) :
    ((dispatchCalls env turn keys tcbi st).1).final_text = st.final_text := by
  induction keys generalizing st with
  | nil => rfl
  | cons i rest ih =>
    unfold dispatchCalls
    cases lookupIdx tcbi i with
    | none => exact ih st
    | some tc =>
      rw [ih, dispatchCall_final_text]

theorem processChunks_tcbi (tid : String) (cs : List Chunk) (st : TurnAcc) :
    (processChunks tid st cs).1.tool_calls_by_index =
      cs.foldl (fun m c => c.tool_calls.foldl applyDelta m) st.tool_calls_by_index := by
  induction cs generalizing st with
  | nil => rfl
  | cons c cs ih =>
    show (processChunks tid (processChunk tid st c).1 cs).1.tool_calls_by_index = _
    rw [ih]
    rfl

/-! ## Event accounting for one turn -/

theorem runTurn_countP (env : Env) (turn : Nat) (st : LoopState) (p : Event → Bool)
    (hstep : ∀ t l, p (Event.step t l) = false)
    (hsc : ∀ t l, p (Event.step_complete t l) = false)
    (htext : ∀ s, p (Event.text_delta s) = false)
    (hsub : ∀ s : SubEvent, p s.toEvent = false) :
    ((runTurn env turn st).2.1).countP p = 0 := by
  have hchunks : ∀ cs,
      ((processChunks (thinkingId turn) initTurnAcc cs).2).countP p = 0 :=
    fun cs => processChunks_countP _ cs _ p (hsc _ _) htext
  have hresolve : ∀ b : Bool,
      (List.countP p (if b then [] else [Event.step_complete (thinkingId turn) "Thinking"])) = 0 := by
    intro b
    cases b <;> simp [hsc]
  cases hs : env.streams turn with
  | failure pfx =>
    have hrt : runTurn env turn st =
        (st, Event.step (thinkingId turn) "Thinking..." ::
          (processChunks (thinkingId turn) initTurnAcc pfx).2, TurnExit.failed) := by
      unfold runTurn
      rw [hs]
    rw [hrt]
    simp only [List.countP_cons, hstep, hchunks pfx]
    simp
  | success chunks =>
    have hrt : runTurn env turn st = runTurnSuccess env turn st chunks := by
      unfold runTurn
      rw [hs]
    rw [hrt]
    simp only [runTurnSuccess]
    by_cases he :
        (processChunks (thinkingId turn) initTurnAcc chunks).1.tool_calls_by_index.isEmpty = true
    · rw [if_pos he]
      simp only [List.countP_cons, List.countP_append, hstep, hchunks chunks, hresolve]
      simp
    · rw [if_neg he]
      simp only [List.countP_cons, List.countP_append, hstep, hchunks chunks, hresolve,
        dispatchCalls_countP env turn _ _ _ p hstep hsc hsub]
      simp

theorem runTurn_noDone (env : Env) (turn : Nat) (st : LoopState) :
    ((runTurn env turn st).2.1).countP Event.isDone = 0 :=
  runTurn_countP env turn st Event.isDone (fun _ _ => rfl) (fun _ _ => rfl) (fun _ => rfl)
    subEvent_not_done

theorem countP_step_singleton_label (t tid lbl : String) :
    List.countP (isStepWith t) [Event.step tid lbl] = if t = tid then 1 else 0 := by
  by_cases h : t = tid
  · subst h
    simp [List.countP_cons, isStepWith]
  · have h2 : (tid == t) = false := beq_eq_false_iff_ne.mpr (fun hh => h hh.symm)
    simp [List.countP_cons, isStepWith, h2, h]

/-- A turn that does not fail emits balanced `step`/`step_complete` counts
for every correlation id. -/
theorem runTurn_balanced (env : Env) (turn : Nat) (st : LoopState) (t : String)
    (hne : (runTurn env turn st).2.2 ≠ TurnExit.failed) :
    countStepWith (runTurn env turn st).2.1 t =
      countStepCompleteWith (runTurn env turn st).2.1 t := by
  have hstep0 : ∀ cs,
      List.countP (isStepWith t) ((processChunks (thinkingId turn) initTurnAcc cs).2) = 0 :=
    fun cs => processChunks_countP _ cs _ _ rfl (fun _ => rfl)
  cases hs : env.streams turn with
  | failure pfx =>
    exfalso
    apply hne
    unfold runTurn
    rw [hs]
  | success chunks =>
    have hrt : runTurn env turn st = runTurnSuccess env turn st chunks := by
      unfold runTurn
      rw [hs]
    rw [hrt]
    simp only [runTurnSuccess]
    have hscchunks := processChunks_sc_count (thinkingId turn) chunks initTurnAcc t rfl
    unfold countStepWith countStepCompleteWith at hscchunks ⊢
    have hbody : ∀ tail : List Event,
        List.countP (isStepWith t) tail = List.countP (isSCWith t) tail →
        List.countP (isStepWith t)
            (Event.step (thinkingId turn) "Thinking..." ::
              ((processChunks (thinkingId turn) initTurnAcc chunks).2 ++
                (if (processChunks (thinkingId turn) initTurnAcc chunks).1.thinking_resolved
                  then [] else [Event.step_complete (thinkingId turn) "Thinking"]) ++ tail)) =
          List.countP (isSCWith t)
            (Event.step (thinkingId turn) "Thinking..." ::
              ((processChunks (thinkingId turn) initTurnAcc chunks).2 ++
                (if (processChunks (thinkingId turn) initTurnAcc chunks).1.thinking_resolved
                  then [] else [Event.step_complete (thinkingId turn) "Thinking"]) ++ tail)) := by
      intro tail htail
      simp only [List.countP_cons, List.countP_append, hstep0 chunks, hscchunks, htail]
      cases hres : (processChunks (thinkingId turn) initTurnAcc chunks).1.thinking_resolved with
      | true =>
        simp only [if_pos rfl, List.countP_nil, Bool.true_and]
        by_cases ht : t = thinkingId turn
        · subst ht
          simp [isStepWith, isSCWith]
          omega
        · have h2 : (t == thinkingId turn) = false := beq_eq_false_iff_ne.mpr ht
          have h3 : (thinkingId turn == t) = false :=
            beq_eq_false_iff_ne.mpr (fun hh => ht hh.symm)
          simp [isStepWith, isSCWith, h2, h3]
      | false =>
        simp only [Bool.false_and, if_neg (by simp : ¬(false = true)), countP_sc_singleton]
        by_cases ht : t = thinkingId turn
        · subst ht
          simp [isStepWith, isSCWith]
          omega
        · have h2 : (t == thinkingId turn) = false := beq_eq_false_iff_ne.mpr ht
          have h3 : (thinkingId turn == t) = false :=
            beq_eq_false_iff_ne.mpr (fun hh => ht hh.symm)
          simp [isStepWith, isSCWith, h2, h3, ht]
    by_cases he :
        (processChunks (thinkingId turn) initTurnAcc chunks).1.tool_calls_by_index.isEmpty = true
    · rw [if_pos he]
      have := hbody [] (by rfl)
      simpa using this
    · rw [if_neg he]
      apply hbody
      have hb : ∀ st2 : LoopState,
          List.countP (isStepWith t) (dispatchCalls env turn
            (sortKeys (List.map Prod.fst
              (processChunks (thinkingId turn) initTurnAcc chunks).1.tool_calls_by_index))
            (processChunks (thinkingId turn) initTurnAcc chunks).1.tool_calls_by_index st2).2 =
          List.countP (isSCWith t) (dispatchCalls env turn
            (sortKeys (List.map Prod.fst
              (processChunks (thinkingId turn) initTurnAcc chunks).1.tool_calls_by_index))
            (processChunks (thinkingId turn) initTurnAcc chunks).1.tool_calls_by_index st2).2 := by
        intro st2
        have h1 := dispatchCalls_balanced env turn
          (sortKeys (List.map Prod.fst
            (processChunks (thinkingId turn) initTurnAcc chunks).1.tool_calls_by_index))
          (processChunks (thinkingId turn) initTurnAcc chunks).1.tool_calls_by_index st2 t
        unfold countStepWith countStepCompleteWith at h1
        exact h1
      exact hb _

/-- A turn that does not fail extends `final_text` by exactly the
concatenated `text_delta` payloads it emitted. -/
theorem runTurn_text (env : Env) (turn : Nat) (st : LoopState)
    (hne : (runTurn env turn st).2.2 ≠ TurnExit.failed) :
    ((runTurn env turn st).1).final_text =
      st.final_text ++ textDeltaConcat (runTurn env turn st).2.1 := by
  have htdc : ∀ cs, textDeltaConcat ((processChunks (thinkingId turn) initTurnAcc cs).2) =
      (processChunks (thinkingId turn) initTurnAcc cs).1.turn_text := by
    intro cs
    rw [processChunks_turn_text]
    exact (empty_append_str _).symm
  have hresolve : ∀ b : Bool,
      textDeltaConcat (if b then [] else [Event.step_complete (thinkingId turn) "Thinking"]) = "" := by
    intro b
    cases b <;> rfl
  cases hs : env.streams turn with
  | failure pfx =>
    exfalso
    apply hne
    unfold runTurn
    rw [hs]
  | success chunks =>
    have hrt : runTurn env turn st = runTurnSuccess env turn st chunks := by
      unfold runTurn
      rw [hs]
    rw [hrt]
    simp only [runTurnSuccess]
    by_cases he :
        (processChunks (thinkingId turn) initTurnAcc chunks).1.tool_calls_by_index.isEmpty = true
    · rw [if_pos he]
      simp only [textDeltaConcat_cons, textDeltaConcat_append, htdc chunks, hresolve]
      rw [str_append_empty, empty_append_str]
    · rw [if_neg he]
      have hdevs : ∀ st2 : LoopState, textDeltaConcat (dispatchCalls env turn
          (sortKeys (List.map Prod.fst
            (processChunks (thinkingId turn) initTurnAcc chunks).1.tool_calls_by_index))
          (processChunks (thinkingId turn) initTurnAcc chunks).1.tool_calls_by_index st2).2 = "" :=
        fun st2 => textDeltaConcat_of_no_text _
          (dispatchCalls_countP env turn _ _ st2 isTextDelta (fun _ _ => rfl) (fun _ _ => rfl)
            subEvent_not_text)
      simp only [textDeltaConcat_cons, textDeltaConcat_append, htdc chunks, hresolve,
        dispatchCalls_final_text, hdevs]
      rw [str_append_empty, str_append_empty, empty_append_str]

/-- A successful stream with no accumulated tool calls breaks the loop. -/
theorem runTurn_exit_broke (env : Env) (turn : Nat) (st : LoopState) (chunks : List Chunk)
    (hs : env.streams turn = StreamResult.success chunks)
    (hempty : accumToolCalls chunks = []) :
    (runTurn env turn st).2.2 = TurnExit.broke := by
  have hrt : runTurn env turn st = runTurnSuccess env turn st chunks := by
    unfold runTurn
    rw [hs]
  rw [hrt]
  simp only [runTurnSuccess]
  have he : (processChunks (thinkingId turn) initTurnAcc chunks).1.tool_calls_by_index.isEmpty
      = true := by
    rw [processChunks_tcbi]
    show (accumToolCalls chunks).isEmpty = true
    rw [hempty]
    rfl
  rw [if_pos he]

/-- A successful stream with at least one accumulated tool call falls
through to the next turn. -/
theorem runTurn_exit_next (env : Env) (turn : Nat) (st : LoopState) (chunks : List Chunk)
    (hs : env.streams turn = StreamResult.success chunks)
    (hne : accumToolCalls chunks ≠ []) :
    (runTurn env turn st).2.2 = TurnExit.next := by
  have hrt : runTurn env turn st = runTurnSuccess env turn st chunks := by
    unfold runTurn
    rw [hs]
  rw [hrt]
  simp only [runTurnSuccess]
  have he : (processChunks (thinkingId turn) initTurnAcc chunks).1.tool_calls_by_index.isEmpty
      = false := by
    rw [processChunks_tcbi]
    show (accumToolCalls chunks).isEmpty = false
    cases hc : accumToolCalls chunks with
    | nil => exact absurd hc hne
    | cons a l => rfl
  rw [if_neg (by rw [he]; exact fun hcontra => Bool.noConfusion hcontra)]

/-- A failing turn leaves the loop state untouched, and only a raising
stream produces a failing turn. -/
theorem runTurn_exit_failed (env : Env) (turn : Nat) (st : LoopState)
    (hf : (runTurn env turn st).2.2 = TurnExit.failed) :
    (runTurn env turn st).1 = st ∧
      ∃ pfx, env.streams turn = StreamResult.failure pfx := by
  cases hs : env.streams turn with
  | failure pfx =>
    constructor
    · unfold runTurn
      rw [hs]
    · exact ⟨pfx, rfl⟩
  | success chunks =>
    exfalso
    have hrt : runTurn env turn st = runTurnSuccess env turn st chunks := by
      unfold runTurn
      rw [hs]
    rw [hrt] at hf
    simp only [runTurnSuccess] at hf
    by_cases he :
        (processChunks (thinkingId turn) initTurnAcc chunks).1.tool_calls_by_index.isEmpty = true
    · rw [if_pos he] at hf
      cases hf
    · rw [if_neg he] at hf
      cases hf

/-! ## The turn loop -/

theorem runLoop_zero (env : Env) (turn : Nat) (st : LoopState) :
    runLoop env 0 turn st = ⟨[], st, false, 0⟩ := rfl

theorem runLoop_succ (env : Env) (fuel turn : Nat) (st : LoopState) :
    runLoop env (fuel + 1) turn st =
      match (runTurn env turn st).2.2 with
      | TurnExit.failed =>
        ⟨(runTurn env turn st).2.1, (runTurn env turn st).1, true, 1⟩
      | TurnExit.broke =>
        ⟨(runTurn env turn st).2.1, (runTurn env turn st).1, false, 1⟩
      | TurnExit.next =>
        ⟨(runTurn env turn st).2.1 ++ (runLoop env fuel (turn + 1) (runTurn env turn st).1).events,
         (runLoop env fuel (turn + 1) (runTurn env turn st).1).state,
         (runLoop env fuel (turn + 1) (runTurn env turn st).1).failed,
         (runLoop env fuel (turn + 1) (runTurn env turn st).1).turns + 1⟩ := rfl

theorem runLoop_turns_le (env : Env) (fuel turn : Nat) (st : LoopState) :
    (runLoop env fuel turn st).turns ≤ fuel := by
  induction fuel generalizing turn st with
  | zero => exact Nat.le_refl 0
  | succ fuel ih =>
    rw [runLoop_succ]
    cases hex : (runTurn env turn st).2.2
    · show (runLoop env fuel (turn + 1) (runTurn env turn st).1).turns + 1 ≤ fuel + 1
      exact Nat.succ_le_succ (ih (turn + 1) _)
    · show 1 ≤ fuel + 1
      exact Nat.succ_le_succ (Nat.zero_le _)
    · show 1 ≤ fuel + 1
      exact Nat.succ_le_succ (Nat.zero_le _)

theorem runLoop_noDone (env : Env) (fuel turn : Nat) (st : LoopState) :
    ((runLoop env fuel turn st).events).countP Event.isDone = 0 := by
  induction fuel generalizing turn st with
  | zero => rfl
  | succ fuel ih =>
    rw [runLoop_succ]
    cases hex : (runTurn env turn st).2.2
    · show ((runTurn env turn st).2.1 ++
          (runLoop env fuel (turn + 1) (runTurn env turn st).1).events).countP Event.isDone = 0
      rw [List.countP_append, runTurn_noDone, ih]
    · exact runTurn_noDone env turn st
    · exact runTurn_noDone env turn st

theorem runLoop_balanced (env : Env) (fuel turn : Nat) (st : LoopState) (t : String)
    (h : (runLoop env fuel turn st).failed = false) :
    countStepWith (runLoop env fuel turn st).events t =
      countStepCompleteWith (runLoop env fuel turn st).events t := by
  induction fuel generalizing turn st with
  | zero => rfl
  | succ fuel ih =>
    rw [runLoop_succ] at h ⊢
    cases hex : (runTurn env turn st).2.2
    case next =>
      rw [hex] at h
      have h' : (runLoop env fuel (turn + 1) (runTurn env turn st).1).failed = false := h
      show countStepWith ((runTurn env turn st).2.1 ++
          (runLoop env fuel (turn + 1) (runTurn env turn st).1).events) t = _
      unfold countStepWith countStepCompleteWith
      rw [List.countP_append, List.countP_append]
      have hb := runTurn_balanced env turn st t (by rw [hex]; exact fun hc => TurnExit.noConfusion hc)
      have hl := ih (turn + 1) (runTurn env turn st).1 h'
      unfold countStepWith countStepCompleteWith at hb hl
      rw [hb, hl]
    case broke =>
      exact runTurn_balanced env turn st t (by rw [hex]; exact fun hc => TurnExit.noConfusion hc)
    case failed =>
      rw [hex] at h
      exact absurd h (by simp)

theorem runLoop_text (env : Env) (fuel turn : Nat) (st : LoopState)
    (h : (runLoop env fuel turn st).failed = false) :
    (runLoop env fuel turn st).state.final_text =
      st.final_text ++ textDeltaConcat (runLoop env fuel turn st).events := by
  induction fuel generalizing turn st with
  | zero =>
    show st.final_text = st.final_text ++ textDeltaConcat []
    exact (str_append_empty _).symm
  | succ fuel ih =>
    rw [runLoop_succ] at h ⊢
    cases hex : (runTurn env turn st).2.2
    case next =>
      rw [hex] at h
      have h' : (runLoop env fuel (turn + 1) (runTurn env turn st).1).failed = false := h
      show (runLoop env fuel (turn + 1) (runTurn env turn st).1).state.final_text =
        st.final_text ++ textDeltaConcat ((runTurn env turn st).2.1 ++
          (runLoop env fuel (turn + 1) (runTurn env turn st).1).events)
      rw [ih (turn + 1) _ h',
        runTurn_text env turn st (by rw [hex]; exact fun hc => TurnExit.noConfusion hc),
        textDeltaConcat_append, String.append_assoc]
    case broke =>
      exact runTurn_text env turn st (by rw [hex]; exact fun hc => TurnExit.noConfusion hc)
    case failed =>
      rw [hex] at h
      exact absurd h (by simp)

theorem runLoop_stop (env : Env) (fuel turn : Nat) (st : LoopState) (chunks : List Chunk)
    (hs : env.streams turn = StreamResult.success chunks)
    (hempty : accumToolCalls chunks = []) :
    (runLoop env (fuel + 1) turn st).turns = 1 := by
  rw [runLoop_succ, runTurn_exit_broke env turn st chunks hs hempty]

theorem runLoop_all_tools (env : Env) (fuel : Nat) :
    ∀ (turn : Nat) (st : LoopState),
      (∀ s, turn ≤ s → s < turn + fuel → ∃ chunks,
        env.streams s = StreamResult.success chunks ∧ accumToolCalls chunks ≠ []) →
      (runLoop env fuel turn st).turns = fuel ∧ (runLoop env fuel turn st).failed = false := by
  induction fuel with
  | zero =>
    intro turn st _
    exact ⟨rfl, rfl⟩
  | succ fuel ih =>
    intro turn st hall
    obtain ⟨chunks, hs, hne⟩ := hall turn (Nat.le_refl _) (by omega)
    rw [runLoop_succ, runTurn_exit_next env turn st chunks hs hne]
    have hrec := ih (turn + 1) (runTurn env turn st).1
      (fun s h1 h2 => hall s (by omega) (by omega))
    exact ⟨by show _ + 1 = fuel + 1; rw [hrec.1], hrec.2⟩

/-! ## Loop-level claims -/

/-- C1: on every termination path exactly one `done` event is emitted, and
it is the last event yielded by the generator. -/
theorem C1_done_once_last (env : Env) (messages : List Msg) :
    (run_agent_stream env messages).countP Event.isDone = 1 ∧
    ∃ c a th, (run_agent_stream env messages).getLast? = some (Event.done c a th) := by
  constructor
  · simp only [run_agent_stream]
    rw [List.countP_append, runLoop_noDone]
    rfl
  · refine ⟨(if (runLoop env MAX_TURNS 0 (initState messages)).failed &&
        ((runLoop env MAX_TURNS 0 (initState messages)).state.final_text == "")
      then APOLOGY else (runLoop env MAX_TURNS 0 (initState messages)).state.final_text),
      (runLoop env MAX_TURNS 0 (initState messages)).state.accumulated_actions,
      (runLoop env MAX_TURNS 0 (initState messages)).state.tool_thread, ?_⟩
    simp only [run_agent_stream]
    rw [List.getLast?_append_cons]
    rfl

/-- C2 as stated is false on two counts.  ACTION step ids are
`f"{name}_{idx}"` with no turn component, so two turns that call the same
action tool at the same index reuse one correlation id: the id
`update_muscle_0` carries two `step` events in this invocation, so
correlation ids are not unique within the invocation.  And when the
third turn's stream raises before the thinking indicator resolves, the
`step` with id `thinking_2` is emitted but its `step_complete` never is, so
the per-id counts differ on the failure path. -/
theorem C2_counterexample :
    countStepWith (run_agent_stream envC2 []) "update_muscle_0" = 2 ∧
    countStepWith (run_agent_stream envC2 []) "thinking_2" = 1 ∧
    countStepCompleteWith (run_agent_stream envC2 []) "thinking_2" = 0 := by
  refine ⟨?_, ?_, ?_⟩ <;> rfl

/-- C2 (amended): in every invocation in which no unhandled exception
escapes the turn body, the number of `step` events equals the number of
`step_complete` events for every correlation id (so every `step` is paired);
the correlation id is however not always unique within the invocation,
because ACTION step ids omit the turn number and can repeat across turns. -/
theorem C2_step_counts_balanced (env : Env) (messages : List Msg) (tid : String)
    (h : (runLoop env MAX_TURNS 0 (initState messages)).failed = false) :
    countStepWith (run_agent_stream env messages) tid =
      countStepCompleteWith (run_agent_stream env messages) tid := by
  unfold countStepWith countStepCompleteWith
  simp only [run_agent_stream]
  rw [List.countP_append, List.countP_append]
  have hb := runLoop_balanced env MAX_TURNS 0 (initState messages) tid h
  unfold countStepWith countStepCompleteWith at hb
  rw [hb]
  rfl

theorem C2_step_counts_balanced_witness :
    (runLoop envQuiet MAX_TURNS 0 (initState [])).failed = false ∧
    countStepWith (run_agent_stream envQuiet []) "thinking_0" =
      countStepCompleteWith (run_agent_stream envQuiet []) "thinking_0" :=
  ⟨rfl, C2_step_counts_balanced envQuiet [] "thinking_0" rfl⟩

/-- C3: at most `MAX_TURNS` (10) turns execute; a turn whose stream yields
zero tool calls is the last turn of the loop; and a model that requests a
tool call on every turn drives exactly 10 turns, terminating without
entering the failure path. -/
theorem C3_turn_bound (env : Env) (messages : List Msg) :
    (runLoop env MAX_TURNS 0 (initState messages)).turns ≤ MAX_TURNS ∧
    (∀ (fuel turn : Nat) (st : LoopState) (chunks : List Chunk),
        env.streams turn = StreamResult.success chunks → accumToolCalls chunks = [] →
        (runLoop env (fuel + 1) turn st).turns = 1) ∧
    ((∀ t, t < MAX_TURNS → ∃ chunks, env.streams t = StreamResult.success chunks ∧
        accumToolCalls chunks ≠ []) →
      (runLoop env MAX_TURNS 0 (initState messages)).turns = MAX_TURNS ∧
      (runLoop env MAX_TURNS 0 (initState messages)).failed = false) := by
  refine ⟨runLoop_turns_le env MAX_TURNS 0 _, ?_, ?_⟩
  · intro fuel turn st chunks hs hempty
    exact runLoop_stop env fuel turn st chunks hs hempty
  · intro hall
    exact runLoop_all_tools env MAX_TURNS 0 (initState messages)
      (fun s h1 h2 => hall s (by omega))

theorem C3_turn_bound_witness :
    (runLoop envBusy MAX_TURNS 0 (initState [])).turns ≤ MAX_TURNS ∧
    (runLoop envBusy (0 + 1) 10 (initState [])).turns = 1 ∧
    ((runLoop envBusy MAX_TURNS 0 (initState [])).turns = MAX_TURNS ∧
     (runLoop envBusy MAX_TURNS 0 (initState [])).failed = false) := by
  have h := C3_turn_bound envBusy []
  refine ⟨h.1, ?_, ?_⟩
  · exact h.2.1 0 10 (initState []) [] rfl rfl
  · refine h.2.2 (fun t ht => ⟨[chunkActionCall "ca"], ?_, by decide⟩)
    show (if t < 10 then StreamResult.success [chunkActionCall "ca"]
      else StreamResult.success []) = _
    exact if_pos ht

/-- C9: when an unhandled exception escapes a turn body, the invocation
still terminates by emitting the terminal `done` event: its content is the
accumulated text, replaced by the generic apology exactly when no text had
accumulated, and the accumulated actions and tool thread are returned
unchanged; moreover a failing turn leaves the loop state exactly as it was
when the turn began (no rollback), and only a raising stream fails a turn. -/
theorem C9_loop_failure (env : Env) (messages : List Msg)
    (h : (runLoop env MAX_TURNS 0 (initState messages)).failed = true) :
    run_agent_stream env messages =
      (runLoop env MAX_TURNS 0 (initState messages)).events ++
        [Event.done
          (if (runLoop env MAX_TURNS 0 (initState messages)).state.final_text == ""
            then APOLOGY
            else (runLoop env MAX_TURNS 0 (initState messages)).state.final_text)
          (runLoop env MAX_TURNS 0 (initState messages)).state.accumulated_actions
          (runLoop env MAX_TURNS 0 (initState messages)).state.tool_thread] ∧
    (∀ (turn : Nat) (st' : LoopState), (runTurn env turn st').2.2 = TurnExit.failed →
      (runTurn env turn st').1 = st' ∧
        ∃ pfx, env.streams turn = StreamResult.failure pfx) := by
  constructor
  · simp only [run_agent_stream, h, Bool.true_and]
  · intro turn st' hf
    exact runTurn_exit_failed env turn st' hf

theorem C9_loop_failure_witness :
    run_agent_stream envFail [] =
      (runLoop envFail MAX_TURNS 0 (initState [])).events ++
        [Event.done
          (if (runLoop envFail MAX_TURNS 0 (initState [])).state.final_text == ""
            then APOLOGY
            else (runLoop envFail MAX_TURNS 0 (initState [])).state.final_text)
          (runLoop envFail MAX_TURNS 0 (initState [])).state.accumulated_actions
          (runLoop envFail MAX_TURNS 0 (initState [])).state.tool_thread] ∧
    ((runTurn envFail 0 (initState [])).1 = initState [] ∧
      ∃ pfx, envFail.streams 0 = StreamResult.failure pfx) :=
  ⟨(C9_loop_failure envFail [] rfl).1,
   (C9_loop_failure envFail [] rfl).2 0 (initState []) rfl⟩

/-- C10: in every invocation in which no unhandled exception escapes the
turn body, the `content` field of the `done` event equals the
concatenation, in emission order, of the `text` fields of all `text_delta`
events emitted during the invocation. -/
theorem C10_done_content (env : Env) (messages : List Msg)
    (h : (runLoop env MAX_TURNS 0 (initState messages)).failed = false) :
    (runLoop env MAX_TURNS 0 (initState messages)).state.final_text =
      textDeltaConcat (runLoop env MAX_TURNS 0 (initState messages)).events ∧
    run_agent_stream env messages =
      (runLoop env MAX_TURNS 0 (initState messages)).events ++
        [Event.done
          (textDeltaConcat (runLoop env MAX_TURNS 0 (initState messages)).events)
          (runLoop env MAX_TURNS 0 (initState messages)).state.accumulated_actions
          (runLoop env MAX_TURNS 0 (initState messages)).state.tool_thread] := by
  have hft := runLoop_text env MAX_TURNS 0 (initState messages) h
  rw [show (initState messages).final_text = "" from rfl, empty_append_str] at hft
  refine ⟨hft, ?_⟩
  simp only [run_agent_stream, h, Bool.false_and]
  rw [if_neg (by exact fun hc => Bool.noConfusion hc), hft]

theorem C10_done_content_witness :
    (runLoop envText MAX_TURNS 0 (initState [])).failed = false ∧
    (runLoop envText MAX_TURNS 0 (initState [])).state.final_text =
      textDeltaConcat (runLoop envText MAX_TURNS 0 (initState [])).events :=
  ⟨rfl, (C10_done_content envText [] rfl).1⟩

end ChatPT
